import Mathlib

/-!
Verification development for the verb-execution core of broot:
the placeholder-expansion engine (`src/verb/execution_builder.rs`),
the internal execution descriptor (`src/verb/internal_execution.rs`)
and the shared placeholder grammar (`src/verb/mod.rs`).

Strings and paths are modelled as lists of characters (`Str`); paths are
assumed valid UTF-8, so Rust's `to_string_lossy` is the identity.
-/

namespace Broot

abbrev Str := List Char

/-- Whitespace, as used by the whitespace tokenizer. -/
def isWs (c : Char) : Bool :=
  c = ' ' || c = '\t' || c = '\r' || c = '\n'

/-! ## The placeholder grammar

`src/verb/mod.rs` defines the process-wide regex
`\{([^{}:]+)(?::([^{}:]+))?\}` (constant `GROUP`).  We embed it as a
direct left-to-right scanner with the same matching semantics:
a match needs `{`, a nonempty run of characters none of which is
`{`, `}` or `:` (the name, group 1), optionally `:` followed by another
such nonempty run (the format, group 2), then `}`.  Replacement scans
left to right and never overlaps matches, as `Regex::replace_all` does. -/

/-- A character allowed inside a placeholder name or format
(the `[^{}:]` character class of `GROUP`). -/
def plainChar (c : Char) : Bool :=
  c != '{' && c != '}' && c != ':'

/-- Try to match the tail of a `GROUP` occurrence just after a `{`:
returns the name, the optional format, and the remaining input after
the closing `}`. -/
def tryMatchGroup (rest : Str) : Option (Str × Option Str × Str) :=
  let name := rest.takeWhile plainChar
  if name.isEmpty then none else
  match rest.drop name.length with
  | '}' :: rem => some (name, none, rem)
  | ':' :: rest2 =>
    let fmt := rest2.takeWhile plainChar
    if fmt.isEmpty then none else
    match rest2.drop fmt.length with
    | '}' :: rem => some (name, some fmt, rem)
    | _ => none
  | _ => none

/-- Replacement scan, structured by fuel so that it evaluates by kernel
reduction; every step consumes at least one input character (a match
consumes its whole token, see `tryMatchGroup`), so fuel equal to the
input length never runs out. -/
def groupReplaceGo (repl : Str → Option Str → Str) : Nat → Str → Str
  | _, [] => []
  | 0, s => s
  | fuel + 1, c :: rest =>
    if c = '{' then
      match tryMatchGroup rest with
      | some (name, fmt, rem) => repl name fmt ++ groupReplaceGo repl fuel rem
      | none => c :: groupReplaceGo repl fuel rest
    else c :: groupReplaceGo repl fuel rest

/-- `GROUP.replace_all`: scan the input, replacing every occurrence of a
well-formed `{name}` / `{name:format}` token by `repl name fmt`;
malformed tokens are left as literal text. -/
def groupReplaceAll (repl : Str → Option Str → Str) (s : Str) : Str :=
  groupReplaceGo repl s.length s

/-! ## The quote-aware whitespace splitter

Modelled from the spec: the external `splitty` collaborator
(`split_unquoted_whitespace(..).unwrap_quotes(b)`), described in §4.4 as a
"quote-aware whitespace splitter": whitespace outside double quotes
separates tokens, a double-quoted substring stays inside one token, and
the quote characters are stripped from the token exactly when the
`unwrap` flag is true. -/

def splitUQ (unwrap : Bool) : Str → Bool → Str → List Str
  | [], _, cur => if cur.isEmpty then [] else [cur]
  | c :: rest, inQ, cur =>
    if c = '"' then
      splitUQ unwrap rest (!inQ) (if unwrap then cur else cur ++ [c])
    else if !inQ && isWs c then
      if cur.isEmpty then splitUQ unwrap rest false []
      else cur :: splitUQ unwrap rest false []
    else
      splitUQ unwrap rest inQ (cur ++ [c])

/-- Modelled from the spec: `split_unquoted_whitespace` with
`unwrap_quotes(unwrap)`. -/
def splitUnquotedWhitespace (unwrap : Bool) (s : Str) : List Str :=
  splitUQ unwrap s false []

/-! ## Paths

Modelled from the spec / the Unix path semantics the code relies on:
`Path::parent` returns the path without its final component (`none` at
the filesystem root or for the empty path); `Path::new(s).to_str()` is
always `some s` because a Rust `&str` is valid UTF-8. -/

/-- Remove trailing `/` separators. -/
def dropTrailingSlashes (p : Str) : Str :=
  (p.reverse.dropWhile (fun c => c = '/')).reverse

/-- Modelled from the spec: the direct parent of a path
("the path's direct parent", none at the filesystem root),
following Unix `Path::parent` semantics. -/
def pathParent (p : Str) : Option Str :=
  if p.isEmpty then none else
  let q := dropTrailingSlashes p
  if q.isEmpty then none else
  let comp := q.reverse.takeWhile (fun c => c != '/')
  let pre := (q.reverse.drop comp.length).reverse
  let stripped := dropTrailingSlashes pre
  if stripped.isEmpty then
    if pre.isEmpty then some [] else some ['/']
  else some stripped

/-- `Path::new(token).to_str()`: a token built from a Rust `&str` is
always valid UTF-8, so the conversion always succeeds and returns the
same text. -/
def pathToStr (t : Str) : Option Str := some t

/-! ## External path utilities

`src/path.rs` is not part of the analyzed sources; the builder calls
`path::closest_dir`, `path::escape_for_shell` and `path::path_str_from`
through the collaborator contract of spec §6.  We keep them as explicit
parameters of the builder operations, bundled in a structure. -/

/-- Modelled from the spec: the external path-utility collaborator
(`closest_dir(path) -> path`, `escape_for_shell(path) -> string`,
`path_str_from(base_dir, relative_str) -> string`, §6), together with
the Rust standard library's Unicode table lookup used by the `{:?}`
debug rendering: `debug_plain c` is true exactly when
`char::escape_debug` renders `c` as itself (printable and not
grapheme-extended). -/
structure PathMod where
  closest_dir : Str → Str
  escape_for_shell : Str → Str
  path_str_from : Str → Str → Str
  debug_plain : Char → Bool

/-- A character that never needs shell escaping. -/
def shellSafeChar (c : Char) : Bool :=
  c.isAlphanum || c = '/' || c = '.' || c = '-' || c = '_'

/-- Modelled from the spec: shell escaping ("a space, quote, or
metacharacter becomes safely embeddable in a single-shell-token
context", §4.4): a string of safe characters is returned unchanged,
anything else is wrapped in single quotes with embedded single quotes
escaped. -/
def specEscapeForShell (p : Str) : Str :=
  if p.all shellSafeChar then p
  else '\'' :: (p.flatMap fun c =>
    if c = '\'' then ['\'', '\\', '\'', '\''] else [c]) ++ ['\'']

/-- Modelled from the spec: a concrete instance of the path-utility
collaborator, used to instantiate concrete examples.  `closest_dir`
falls back to the parent ("the nearest enclosing directory", §4.4),
`path_str_from` joins with a `/`, and `debug_plain` is the
printability table restricted to the ASCII range, where it is exact
(printable ASCII is rendered plain, C0 controls and DEL are escaped);
every concrete example below uses only ASCII specifiers. -/
def specPathMod : PathMod where
  closest_dir := fun p => (pathParent p).getD p
  escape_for_shell := specEscapeForShell
  path_str_from := fun base rel => base ++ '/' :: rel
  debug_plain := fun c => !(c.toNat < 0x20 || c.toNat = 0x7f)

/-! ## The execution string builder (`src/verb/execution_builder.rs`) -/

/-- `crate::app::SelectionType` (collaborator): entry classification. -/
inductive SelectionType where
  | file
  | directory
  deriving DecidableEq

/-- `crate::app::Selection` (collaborator, spec §6): path, line number,
classification, executable flag. -/
structure Selection where
  path : Str
  line : Nat
  stype : SelectionType
  is_exe : Bool

/-- `ExecutionStringBuilder`: the current selection, the other panel's
selection when there are exactly two panels, and the parsed invocation
arguments.  The `FnvHashMap<String, String>` is modelled as an
association list with unique keys. -/
structure ExecutionStringBuilder where
  sel : Selection
  other_file : Option Str
  invocation_values : Option (List (Str × Str))

/-- `FnvHashMap::get`. -/
def lookupVal : List (Str × Str) → Str → Option Str
  | [], _ => none
  | (k, v) :: rest, name => if k = name then some v else lookupVal rest name

/-- String constants used by `get_raw_capture_replacement`. -/
def sLine : Str := "line".toList

def sFile : Str := "file".toList

def sDirectory : Str := "directory".toList

def sParent : Str := "parent".toList

def sOPF : Str := "other-panel-file".toList

def sOPD : Str := "other-panel-directory".toList

def sOPP : Str := "other-panel-parent".toList

def sPathFromDirectory : Str := "path-from-directory".toList

def sPathFromParent : Str := "path-from-parent".toList

/-- The seven standard placeholder names. -/
def standardNames : List Str :=
  [sLine, sFile, sDirectory, sParent, sOPF, sOPD, sOPP]

/-- Rust's `\u{...}` escape: the character's scalar value in lowercase
hexadecimal without leading zeros. -/
def unicodeEscape (c : Char) : Str :=
  '\\' :: 'u' :: '{' :: (Nat.toDigits 16 c.toNat ++ ['}'])

/-- The characters `char::escape_debug` escapes unconditionally (inside
a `str` Debug rendering, which escapes double but not single quotes):
`\0`, `\t`, `\r`, `\n`, `\\` and `"`. -/
def debugSpecialChar (c : Char) : Bool :=
  c = '\x00' || c = '\t' || c = '\r' || c = '\n' || c = '\\' || c = '"'

/-- One debug-escaped character of Rust's `{:?}` rendering of a `&str`,
following `char::escape_debug`: the six special characters get their
named escapes; any other character is rendered as itself exactly when
the Unicode tables approve it (printable and not grapheme-extended),
and as `\u{...}` otherwise.  The table lookup is Rust standard-library
data external to this repository, passed as the oracle `plain`
(`plain c` is true when `escape_debug` renders `c` as itself). -/
def escDebugChar (plain : Char → Bool) (c : Char) : Str :=
  if c = '\x00' then ['\\', '0']
  else if c = '\t' then ['\\', 't']
  else if c = '\r' then ['\\', 'r']
  else if c = '\n' then ['\\', 'n']
  else if c = '\\' then ['\\', '\\']
  else if c = '"' then ['\\', '"']
  else if plain c then [c]
  else unicodeEscape c

/-- Rust's `{:?}` (Debug) rendering of a `&str`: the text between double
quotes, each character debug-escaped. -/
def debugQuote (plain : Char → Bool) (f : Str) : Str :=
  '"' :: f.flatMap (escDebugChar plain) ++ ['"']

/-- `format!("invalid format: {:?}", fmt)`. -/
def invalidFormatMsg (plain : Char → Bool) (f : Str) : Str :=
  "invalid format: ".toList ++ debugQuote plain f

/-- `self.sel.line.to_string()`: decimal rendering. -/
def lineStr (n : Nat) : Str := (Nat.repr n).toList

/-- `get_parent`: `self.sel.path.parent().unwrap_or(file)`. -/
def getParent (b : ExecutionStringBuilder) : Str :=
  (pathParent b.sel.path).getD b.sel.path

/-- `path_to_string`: `escape_for_shell` when escaping is requested,
otherwise `to_string_lossy` (identity on valid UTF-8). -/
def pathToString (pm : PathMod) (p : Str) (escape : Bool) : Str :=
  if escape then pm.escape_for_shell p else p

/-- `get_directory`: `path::closest_dir(self.sel.path)`. -/
def getDirectory (pm : PathMod) (b : ExecutionStringBuilder) : Str :=
  pm.closest_dir b.sel.path

/-- `get_raw_capture_replacement`: dispatch on the placeholder name;
the seven standard names resolve against the selection/other-panel
context, anything else is looked up in the invocation values, honoring
an optional format specifier. -/
def getRawCaptureReplacement (pm : PathMod) (b : ExecutionStringBuilder)
    (name : Str) (fmt : Option Str) (escape : Bool) : Option Str :=
  if name = sLine then some (lineStr b.sel.line)
  else if name = sFile then some (pathToString pm b.sel.path escape)
  else if name = sDirectory then some (pathToString pm (getDirectory pm b) escape)
  else if name = sParent then some (pathToString pm (getParent b) escape)
  else if name = sOPF then b.other_file.map (fun p => pathToString pm p escape)
  else if name = sOPD then
    (b.other_file.map pm.closest_dir).map (fun p => pathToString pm p escape)
  else if name = sOPP then
    (b.other_file.bind pathParent).map (fun p => pathToString pm p escape)
  else
    b.invocation_values.bind fun map =>
      (lookupVal map name).map fun value =>
        match fmt with
        | some f =>
          if f = sPathFromDirectory then pm.path_str_from (getDirectory pm b) value
          else if f = sPathFromParent then pm.path_str_from (getParent b) value
          else invalidFormatMsg pm.debug_plain f
        | none => value

/-- The whole matched text `ec[0]`: `{name}` or `{name:format}`. -/
def wholeMatch (name : Str) (fmt : Option Str) : Str :=
  '{' :: name ++ (match fmt with | some f => ':' :: f | none => []) ++ ['}']

/-- `get_capture_replacement`: the raw replacement, or the whole matched
text unchanged when the name resolves to nothing. -/
def getCaptureReplacement (pm : PathMod) (b : ExecutionStringBuilder)
    (name : Str) (fmt : Option Str) (escape : Bool) : Str :=
  (getRawCaptureReplacement pm b name fmt escape).getD (wholeMatch name fmt)

/-- Per-token post-processing in `shell_exec_string`: when the token
names an existing filesystem path (`ex` stands for `Path::exists`),
replace it by `Path::new(token).to_str()` when that succeeds. -/
def normalizeToken (ex : Str → Bool) (t : Str) : Str :=
  if ex t then
    match pathToStr t with
    | some p => p
    | none => t
  else t

/-- `join(" ")`. -/
def joinTokens : List Str → Str
  | [] => []
  | [t] => t
  | t :: ts => t ++ ' ' :: joinTokens ts

/-- `shell_exec_string`: replace all placeholders with escaping, then
re-tokenize the whole string with the quote splitter keeping the quotes
(`unwrap_quotes(false)`), post-process each token through the
filesystem-existence check, and rejoin with single spaces. -/
def shellExecString (pm : PathMod) (ex : Str → Bool)
    (b : ExecutionStringBuilder) (execPattern : Str) : Str :=
  let replaced := groupReplaceAll
    (fun name fmt => getCaptureReplacement pm b name fmt true) execPattern
  joinTokens ((splitUnquotedWhitespace false replaced).map (normalizeToken ex))

/-- `exec_token`: tokenize the raw pattern with quote stripping
(`unwrap_quotes(true)`), then replace placeholders inside each token
without escaping. -/
def execToken (pm : PathMod) (b : ExecutionStringBuilder)
    (execPattern : Str) : List Str :=
  (splitUnquotedWhitespace true execPattern).map fun token =>
    groupReplaceAll
      (fun name fmt => getCaptureReplacement pm b name fmt false) token

/-! ## Substring containment (used to state "contains the specifier") -/

/-- `startsWithStr s f`: `f` is an initial segment of `s`. -/
def startsWithStr : Str → Str → Bool
  | _, [] => true
  | [], _ :: _ => false
  | c :: cs, d :: ds => if c = d then startsWithStr cs ds else false

/-- `hasSubStr s f`: `f` occurs contiguously inside `s`. -/
def hasSubStr : Str → Str → Bool
  | [], f => f.isEmpty
  | c :: t, f => startsWithStr (c :: t) f || hasSubStr t f

/-! ## Verb invocation parsing (`VerbInvocation`)

`src/verb/verb_invocation.rs` is not among the analyzed sources; the
parser is modelled from spec §2/§4.2. -/

/-- Remove trailing whitespace. -/
def dropTrailingWs (l : Str) : Str :=
  (l.reverse.dropWhile isWs).reverse

/-- Strip leading and trailing whitespace. -/
def trimWs (s : Str) : Str :=
  dropTrailingWs (s.dropWhile isWs)

/-- Strip the colon prefix of a typed command string (§2:
"a colon-prefixed command string typed by the user"). -/
def stripColon : Str → Str
  | ':' :: r => r
  | s => s

/-- Extract the bang modifier: a `!` immediately after the name. -/
def bangSplit : Str → Bool × Str
  | '!' :: r => (true, r)
  | s => (false, s)

/-- `VerbInvocation`: name, bang flag, optional raw argument text. -/
structure VerbInvocation where
  name : Str
  bang : Bool
  args : Option Str
  deriving DecidableEq

/-- Modelled from the spec: the Verb Invocation Parser
(`verb_invocation.rs` is not among the analyzed sources; §4.2): strip
surrounding whitespace and the colon prefix, read the name up to a `!`
or whitespace, set the bang flag when a `!` immediately follows the
name, and take everything after the following whitespace run as the
argument text, absent when nothing follows. -/
def verbInvocationFrom (s : Str) : VerbInvocation :=
  let t := stripColon (trimWs s)
  let name := t.takeWhile fun c => !(c = '!') && !(isWs c)
  let bs := bangSplit (t.drop name.length)
  let rest := bs.2.dropWhile isWs
  { name := name, bang := bs.1, args := if rest.isEmpty then none else some rest }

/-! ## The internal execution descriptor (`src/verb/internal_execution.rs`)

The `Internal` enum lives in `src/verb/internal.rs`, outside the
analyzed sources; per spec §1/§6 only its lookup-by-name and
name-rendering contract matters, so the descriptor is parametric in the
catalog. -/

/-- `InternalExecution`: internal identifier, bang flag, optional
argument. -/
structure InternalExecution (I : Type) where
  internal : I
  bang : Bool
  arg : Option Str
  deriving DecidableEq

/-- `InternalExecution::try_from`: parse the invocation string, resolve
the name against the internal catalog (`tryFrom`), carry bang and
argument text over verbatim.  `Result<_, ConfError>` is modelled as
`Option`. -/
def internalExecutionTryFrom {I : Type} (tryFrom : Str → Option I)
    (invocationStr : Str) : Option (InternalExecution I) :=
  let invocation := verbInvocationFrom invocationStr
  (tryFrom invocation.name).map fun internal =>
    { internal := internal, bang := invocation.bang, arg := invocation.args }

/-- `InternalExecution::as_desc_code`:
`format!(":{}{} {}", internal.name(), if bang then "!" else "", arg)`,
defined only when the argument is present. -/
def asDescCode {I : Type} (name : I → Str) (e : InternalExecution I) :
    Option Str :=
  e.arg.map fun arg =>
    ':' :: (name e.internal ++ (if e.bang then ['!'] else []) ++ (' ' :: arg))

/-- Modelled from the spec: representative members of the external
internal-command catalog (`Internal`, §6); the member list is out of
scope, only the `try_from` / `name` round-trip contract matters. -/
inductive InternalCmd where
  | focus
  | back
  | print_path
  deriving DecidableEq

/-- `Internal::name` for the representative catalog. -/
def internalName : InternalCmd → Str
  | .focus => "focus".toList
  | .back => "back".toList
  | .print_path => "print_path".toList

/-- `Internal::try_from` for the representative catalog. -/
def internalTryFrom (s : Str) : Option InternalCmd :=
  if s = ("focus".toList) then some .focus
  else if s = ("back".toList) then some .back
  else if s = ("print_path".toList) then some .print_path
  else none

/-! ## Concrete data for the claims' examples -/

/-- The invocation-defined placeholder name `arg`. -/
def sArg : Str := "arg".toList

/-- An unknown placeholder name. -/
def sUnknown : Str := "unknown".toList

/-- The selection shape used by the repository's own tests:
line 0, file type, not executable. -/
def testSelection (p : Str) : Selection :=
  { path := p, line := 0, stype := .file, is_exe := false }

/-- Builder for spec example 2 (selection `expérimental & 试验性`,
invocation value `arg = "deux mots"`). -/
def builderExample2 : ExecutionStringBuilder :=
  { sel := testSelection ("expérimental & 试验性".toList),
    other_file := none,
    invocation_values := some [(sArg, "deux mots".toList)] }

/-- Builder for spec example 3 (selection `/path/to/file`). -/
def builderExample3 : ExecutionStringBuilder :=
  { sel := testSelection ("/path/to/file".toList),
    other_file := none,
    invocation_values := none }

/-- Builder whose other panel shows the filesystem root. -/
def builderOtherRoot : ExecutionStringBuilder :=
  { sel := testSelection ("/home/dys".toList),
    other_file := some ("/".toList),
    invocation_values := none }

/-- Builder with one invocation value for the name `arg`. -/
def builderArgValue : ExecutionStringBuilder :=
  { sel := testSelection ("/home/dys".toList),
    other_file := none,
    invocation_values := some [(sArg, "value".toList)] }

/-- Execution pattern of spec example 2. -/
def pattern2 : Str := "/bin/e.exe -a {arg} -e {file}".toList

/-- Execution pattern of spec example 3. -/
def pattern3 : Str := "xterm -e \"kak {file}\"".toList

/-- A filesystem-existence oracle on which nothing exists. -/
def noFs : Str → Bool := fun _ => false

/-- An internal execution whose argument is present but empty. -/
def execEmptyArg : InternalExecution InternalCmd :=
  { internal := .focus, bang := false, arg := some [] }

/-- The internal execution of `:focus! ~`. -/
def execFocusArg : InternalExecution InternalCmd :=
  { internal := .focus, bang := true, arg := some ("~".toList) }

/-! ## Helper lemmas -/

theorem dropWhile_length_le (p : Char → Bool) :
    ∀ l : Str, (l.dropWhile p).length ≤ l.length
  | [] => Nat.le_refl _
  | c :: t => by
    by_cases h : p c
    · rw [List.dropWhile_cons_of_pos h]
      exact Nat.le_succ_of_le (dropWhile_length_le p t)
    · rw [List.dropWhile_cons_of_neg h]

theorem normalizeToken_id (ex : Str → Bool) (t : Str) :
    normalizeToken ex t = t := by
  unfold normalizeToken pathToStr
  split <;> rfl

theorem map_normalizeToken (ex : Str → Bool) (l : List Str) :
    l.map (normalizeToken ex) = l := by
  induction l with
  | nil => rfl
  | cons t ts ih => simp [normalizeToken_id, ih]

theorem shellExecString_eq (pm : PathMod) (ex : Str → Bool)
    (b : ExecutionStringBuilder) (execPattern : Str) :
    shellExecString pm ex b execPattern =
      joinTokens (splitUnquotedWhitespace false
        (groupReplaceAll
          (fun name fmt => getCaptureReplacement pm b name fmt true)
          execPattern)) := by
  unfold shellExecString
  simp only [map_normalizeToken]

theorem startsWithStr_append_self : ∀ f r : Str, startsWithStr (f ++ r) f = true
  | [], r => by cases r <;> rfl
  | c :: cs, r => by
    show startsWithStr (c :: (cs ++ r)) (c :: cs) = true
    unfold startsWithStr
    rw [if_pos rfl]
    exact startsWithStr_append_self cs r

theorem hasSubStr_of_starts (s f : Str) (h : startsWithStr s f = true) :
    hasSubStr s f = true := by
  cases s with
  | nil =>
    cases f with
    | nil => rfl
    | cons d ds => exact absurd h (by simp [startsWithStr])
  | cons c t => simp [hasSubStr, h]

theorem hasSubStr_append (u : Str) {s f : Str} (h : hasSubStr s f = true) :
    hasSubStr (u ++ s) f = true := by
  induction u with
  | nil => exact h
  | cons c cs ih => simp [hasSubStr, ih]

theorem flatMap_escDebug_plain (plain : Char → Bool) :
    ∀ f : Str, f.all (fun c => !(debugSpecialChar c) && plain c) = true →
      f.flatMap (escDebugChar plain) = f
  | [], _ => rfl
  | c :: t, h => by
    rw [List.all_cons, Bool.and_eq_true] at h
    obtain ⟨hc, ht⟩ := h
    rw [Bool.and_eq_true] at hc
    obtain ⟨hns, hp⟩ := hc
    have hc' : escDebugChar plain c = [c] := by
      unfold debugSpecialChar at hns
      simp only [Bool.not_eq_true', Bool.or_eq_false_iff,
        decide_eq_false_iff_not] at hns
      obtain ⟨⟨⟨⟨⟨h1, h2⟩, h3⟩, h4⟩, h5⟩, h6⟩ := hns
      unfold escDebugChar
      rw [if_neg h1, if_neg h2, if_neg h3, if_neg h4, if_neg h5, if_neg h6,
        if_pos hp]
    rw [List.flatMap_cons, hc', flatMap_escDebug_plain plain t ht]
    rfl

theorem dropTrailingWs_append (l a : Str) (hne : a ≠ [])
    (ha : dropTrailingWs a = a) : dropTrailingWs (l ++ a) = l ++ a := by
  have hrev : a.reverse.dropWhile isWs = a.reverse := by
    have h := congrArg List.reverse ha
    unfold dropTrailingWs at h
    simpa using h
  cases harev : a.reverse with
  | nil =>
    exact absurd (by simpa using congrArg List.reverse harev) hne
  | cons c t =>
    have hc : ¬ (isWs c = true) := by
      intro hcc
      rw [harev, List.dropWhile_cons_of_pos hcc] at hrev
      have hle := dropWhile_length_le isWs t
      rw [hrev] at hle
      simp at hle
    unfold dropTrailingWs
    rw [List.reverse_append, harev, List.cons_append,
      List.dropWhile_cons_of_neg hc, ← List.cons_append, ← harev,
      ← List.reverse_append, List.reverse_reverse]

theorem verbInvocationFrom_noBang (nm a : Str)
    (hname : ∀ c ∈ nm, (!(c = '!') && !(isWs c)) = true)
    (hne : a ≠ []) (hlead : a.dropWhile isWs = a)
    (htrail : dropTrailingWs a = a) :
    verbInvocationFrom (':' :: (nm ++ (' ' :: a))) =
      { name := nm, bang := false, args := some a } := by
  have hargs : (if a.isEmpty then none else some a) = some a := by
    cases a with
    | nil => exact absurd rfl hne
    | cons c t => rfl
  have htrim : trimWs (':' :: (nm ++ (' ' :: a))) =
      ':' :: (nm ++ (' ' :: a)) := by
    unfold trimWs
    rw [List.dropWhile_cons_of_neg (by decide)]
    have hsplit : ':' :: (nm ++ (' ' :: a)) = (':' :: (nm ++ [' '])) ++ a := by
      simp
    rw [hsplit, dropTrailingWs_append _ _ hne htrail, ← hsplit]
  have htw : List.takeWhile (fun c => !(c = '!') && !(isWs c))
      (nm ++ (' ' :: a)) = nm := by
    rw [List.takeWhile_append_of_pos hname,
      List.takeWhile_cons_of_neg (by decide), List.append_nil]
  unfold verbInvocationFrom
  rw [htrim]
  simp only [show stripColon (':' :: (nm ++ (' ' :: a))) = nm ++ (' ' :: a) from rfl,
    htw, List.drop_left,
    show bangSplit (' ' :: a) = (false, ' ' :: a) from rfl,
    show List.dropWhile isWs (' ' :: a) = List.dropWhile isWs a from
      List.dropWhile_cons_of_pos (by decide),
    hlead, hargs]

theorem verbInvocationFrom_bang (nm a : Str)
    (hname : ∀ c ∈ nm, (!(c = '!') && !(isWs c)) = true)
    (hne : a ≠ []) (hlead : a.dropWhile isWs = a)
    (htrail : dropTrailingWs a = a) :
    verbInvocationFrom (':' :: (nm ++ ('!' :: ' ' :: a))) =
      { name := nm, bang := true, args := some a } := by
  have hargs : (if a.isEmpty then none else some a) = some a := by
    cases a with
    | nil => exact absurd rfl hne
    | cons c t => rfl
  have htrim : trimWs (':' :: (nm ++ ('!' :: ' ' :: a))) =
      ':' :: (nm ++ ('!' :: ' ' :: a)) := by
    unfold trimWs
    rw [List.dropWhile_cons_of_neg (by decide)]
    have hsplit : ':' :: (nm ++ ('!' :: ' ' :: a)) =
        (':' :: (nm ++ ['!', ' '])) ++ a := by
      simp
    rw [hsplit, dropTrailingWs_append _ _ hne htrail, ← hsplit]
  have htw : List.takeWhile (fun c => !(c = '!') && !(isWs c))
      (nm ++ ('!' :: ' ' :: a)) = nm := by
    rw [List.takeWhile_append_of_pos hname,
      List.takeWhile_cons_of_neg (by decide), List.append_nil]
  unfold verbInvocationFrom
  rw [htrim]
  simp only [show stripColon (':' :: (nm ++ ('!' :: ' ' :: a))) = nm ++ ('!' :: ' ' :: a) from rfl,
    htw, List.drop_left,
    show bangSplit ('!' :: ' ' :: a) = (true, ' ' :: a) from rfl,
    show List.dropWhile isWs (' ' :: a) = List.dropWhile isWs a from
      List.dropWhile_cons_of_pos (by decide),
    hlead, hargs]

theorem verbInvocationFrom_desc (nm a : Str) (bang : Bool)
    (hname : ∀ c ∈ nm, (!(c = '!') && !(isWs c)) = true)
    (hne : a ≠ []) (hlead : a.dropWhile isWs = a)
    (htrail : dropTrailingWs a = a) :
    verbInvocationFrom
      (':' :: (nm ++ (if bang then ['!'] else []) ++ (' ' :: a))) =
      { name := nm, bang := bang, args := some a } := by
  cases bang with
  | false =>
    have hshape : ':' :: (nm ++ (if false then ['!'] else []) ++ (' ' :: a)) =
        ':' :: (nm ++ (' ' :: a)) := by simp
    rw [hshape]
    exact verbInvocationFrom_noBang nm a hname hne hlead htrail
  | true =>
    have hshape : ':' :: (nm ++ (if true then ['!'] else []) ++ (' ' :: a)) =
        ':' :: (nm ++ ('!' :: ' ' :: a)) := by simp
    rw [hshape]
    exact verbInvocationFrom_bang nm a hname hne hlead htrail

/-! ## Claims -/

/-- C1 (counterexample): in shell-string mode the pattern
`xterm -e "kak {file}"` with selection path `/path/to/file` does NOT
yield `xterm -e kak /path/to/file`: the re-tokenizer is invoked with
`unwrap_quotes(false)`, so the quote characters are kept. -/
theorem shell_example3_not_three_plain_tokens :
    shellExecString specPathMod noFs builderExample3 pattern3 ≠
      ("xterm -e kak /path/to/file".toList) := by decide

/-- C1 (amended): in shell-string mode, after all placeholders are
replaced with escaping, the whole string is re-tokenized by the
quote-aware whitespace splitter with the quote characters KEPT
(`unwrap_quotes(false)`); for the pattern `xterm -e "kak {file}"` with
selection path `/path/to/file` the result is
`xterm -e "kak /path/to/file"` (three tokens joined by single spaces,
the quoted group kept as one token WITH its quotes), for every
filesystem-existence oracle. -/
theorem shell_example3_quotes_kept (ex : Str → Bool) :
    shellExecString specPathMod ex builderExample3 pattern3 =
      ("xterm -e \"kak /path/to/file\"".toList) := by
  rw [shellExecString_eq]
  decide

/-- C1 (witness): the amended result at a concrete existence oracle. -/
theorem shell_example3_quotes_kept_witness :
    shellExecString specPathMod noFs builderExample3 pattern3 =
      ("xterm -e \"kak /path/to/file\"".toList) :=
  shell_example3_quotes_kept noFs

/-- C2: in argument-vector mode, the raw pattern is tokenized before
expansion and placeholders are expanded without escaping inside each
token, so a substituted value containing spaces stays a single token:
the pattern `/bin/e.exe -a {arg} -e {file}` with selection path
`expérimental & 试验性` and invocation value `arg = "deux mots"` yields
exactly `["/bin/e.exe", "-a", "deux mots", "-e", "expérimental & 试验性"]`. -/
theorem exec_token_example2_vector :
    execToken specPathMod builderExample2 pattern2 =
      [("/bin/e.exe".toList), ("-a".toList), ("deux mots".toList),
        ("-e".toList), ("expérimental & 试验性".toList)] := by decide

/-- C3: a placeholder whose name resolves to nothing — a non-standard
name absent from the invocation value mapping (or with the mapping
absent), or an other-panel name when no other panel exists — is replaced
by the full matched placeholder token unchanged, in both modes (for any
escape flag), never removed. -/
theorem unresolved_placeholder_left_literal
    (pm : PathMod) (b : ExecutionStringBuilder) (name : Str)
    (fmt : Option Str) (escape : Bool)
    (h : (name ∉ standardNames ∧
            b.invocation_values.bind (fun m => lookupVal m name) = none) ∨
         (name ∈ [sOPF, sOPD, sOPP] ∧ b.other_file = none)) :
    getCaptureReplacement pm b name fmt escape = wholeMatch name fmt := by
  rcases h with ⟨hstd, hmap⟩ | ⟨hopp, hof⟩
  · simp only [standardNames, List.mem_cons, List.not_mem_nil, or_false] at hstd
    push_neg at hstd
    obtain ⟨h1, h2, h3, h4, h5, h6, h7⟩ := hstd
    unfold getCaptureReplacement getRawCaptureReplacement
    rw [if_neg h1, if_neg h2, if_neg h3, if_neg h4, if_neg h5, if_neg h6,
      if_neg h7]
    cases hb : b.invocation_values with
    | none => rfl
    | some m =>
      rw [hb] at hmap
      simp only [Option.some_bind] at hmap
      simp [hmap]
  · simp only [List.mem_cons, List.not_mem_nil, or_false] at hopp
    rcases hopp with rfl | rfl | rfl
    · unfold getCaptureReplacement
      rw [show getRawCaptureReplacement pm b sOPF fmt escape =
          Option.map (fun p => pathToString pm p escape) b.other_file from rfl,
        hof]
      rfl
    · unfold getCaptureReplacement
      rw [show getRawCaptureReplacement pm b sOPD fmt escape =
          Option.map (fun p => pathToString pm p escape)
            (Option.map pm.closest_dir b.other_file) from rfl,
        hof]
      rfl
    · unfold getCaptureReplacement
      rw [show getRawCaptureReplacement pm b sOPP fmt escape =
          Option.map (fun p => pathToString pm p escape)
            (Option.bind b.other_file pathParent) from rfl,
        hof]
      rfl

/-- C3 (witness): the unknown name `unknown` with no invocation mapping
is left as the literal placeholder. -/
theorem unresolved_placeholder_left_literal_witness :
    getCaptureReplacement specPathMod builderExample3 sUnknown none true =
      wholeMatch sUnknown none :=
  unresolved_placeholder_left_literal specPathMod builderExample3 sUnknown
    none true (Or.inl ⟨by decide, rfl⟩)

/-- C4 (counterexample): with the other panel showing the filesystem
root `/`, the placeholder `{other-panel-parent}` is left literal, while
the parent derivation that `{parent}` uses would fall back to the path
itself (`/`); so the claim that both use the same derivation, with the
placeholder literal only when no other panel exists, is false. -/
theorem other_panel_parent_literal_at_root :
    builderOtherRoot.other_file = some ("/".toList) ∧
    getCaptureReplacement specPathMod builderOtherRoot sOPP none true =
      ("{other-panel-parent}".toList) ∧
    pathToString specPathMod
      ((pathParent ("/".toList)).getD ("/".toList)) true = ("/".toList) ∧
    ("{other-panel-parent}".toList) ≠ ("/".toList) := by decide

/-- C4 (amended): when an other-panel path is present,
`{other-panel-parent}` expands to that path's direct parent when one
exists, stringified; when the other-panel path has no parent (e.g. the
filesystem root) the placeholder is left literal — unlike `{parent}`,
which falls back to the path itself. -/
theorem other_panel_parent_parent_only
    (pm : PathMod) (b : ExecutionStringBuilder) (p : Str)
    (fmt : Option Str) (escape : Bool) (h : b.other_file = some p) :
    getRawCaptureReplacement pm b sOPP fmt escape =
      (pathParent p).map (fun q => pathToString pm q escape) ∧
    (pathParent p = none →
      getCaptureReplacement pm b sOPP fmt escape = wholeMatch sOPP fmt) := by
  have hr : getRawCaptureReplacement pm b sOPP fmt escape =
      Option.map (fun q => pathToString pm q escape)
        (Option.bind b.other_file pathParent) := rfl
  constructor
  · rw [hr, h]
    rfl
  · intro hp
    unfold getCaptureReplacement
    rw [hr, h, show Option.bind (some p) pathParent = pathParent p from rfl,
      hp]
    rfl

/-- C4 (witness): at the root path the raw replacement is absent and the
placeholder stays literal. -/
theorem other_panel_parent_parent_only_witness :
    (getRawCaptureReplacement specPathMod builderOtherRoot sOPP none true =
      (pathParent ("/".toList)).map
        (fun q => pathToString specPathMod q true)) ∧
    (pathParent ("/".toList) = none →
      getCaptureReplacement specPathMod builderOtherRoot sOPP none true =
        wholeMatch sOPP none) :=
  other_panel_parent_parent_only specPathMod builderOtherRoot ("/".toList)
    none true rfl

/-- C5 (counterexample): for the invocation-mapped name `arg` and the
invalid format specifier `a\b`, the replacement is the diagnostic
`invalid format: "a\\b"`, which does not contain the offending
specifier `a\b` itself (the debug rendering doubles the backslash); so
"contains the offending specifier" is false in general. -/
theorem invalid_format_specifier_not_contained :
    getCaptureReplacement specPathMod builderArgValue sArg
      (some ['a', '\\', 'b']) true =
        invalidFormatMsg specPathMod.debug_plain ['a', '\\', 'b'] ∧
    hasSubStr (invalidFormatMsg specPathMod.debug_plain ['a', '\\', 'b'])
      ['a', '\\', 'b'] = false := by
  decide

/-- C5 (amended): when a placeholder's name is found in the invocation
value mapping and carries a format specifier that is neither
`path-from-directory` nor `path-from-parent`, the replacement is the
diagnostic string `invalid format: ` followed by the specifier in
debug-quoted form; it contains the specifier verbatim whenever the
specifier has no quote, backslash, or control/non-printable
(debug-escaped) characters — no specially-escaped character and every
character rendered plain by the printability table.  Expansion never
aborts: the replacement is always defined. -/
theorem invalid_format_diagnostic
    (pm : PathMod) (b : ExecutionStringBuilder) (name f : Str)
    (escape : Bool) (m : List (Str × Str)) (v : Str)
    (hm : b.invocation_values = some m) (hv : lookupVal m name = some v)
    (hstd : name ∉ standardNames)
    (h1 : f ≠ sPathFromDirectory) (h2 : f ≠ sPathFromParent) :
    getRawCaptureReplacement pm b name (some f) escape =
      some (invalidFormatMsg pm.debug_plain f) ∧
    (f.all (fun c => !(debugSpecialChar c) && pm.debug_plain c) = true →
      hasSubStr (invalidFormatMsg pm.debug_plain f) f = true) := by
  constructor
  · simp only [standardNames, List.mem_cons, List.not_mem_nil, or_false] at hstd
    push_neg at hstd
    obtain ⟨g1, g2, g3, g4, g5, g6, g7⟩ := hstd
    unfold getRawCaptureReplacement
    rw [if_neg g1, if_neg g2, if_neg g3, if_neg g4, if_neg g5, if_neg g6,
      if_neg g7, hm]
    simp only [Option.some_bind, hv, Option.map_some']
    rw [if_neg h1, if_neg h2]
  · intro hall
    unfold invalidFormatMsg debugQuote
    rw [flatMap_escDebug_plain pm.debug_plain f hall]
    rw [show ("invalid format: ".toList) ++ (('"' :: f) ++ ['"']) =
        (("invalid format: ".toList) ++ ['"']) ++ (f ++ ['"']) by simp]
    exact hasSubStr_append _
      (hasSubStr_of_starts _ _ (startsWithStr_append_self f ['"']))

/-- C5 (witness): the clean specifier `bad` yields the diagnostic
`invalid format: "bad"`, which contains `bad`. -/
theorem invalid_format_diagnostic_witness :
    getRawCaptureReplacement specPathMod builderArgValue sArg
      (some ("bad".toList)) true =
        some (invalidFormatMsg specPathMod.debug_plain ("bad".toList)) ∧
    (("bad".toList).all
        (fun c => !(debugSpecialChar c) && specPathMod.debug_plain c) = true →
      hasSubStr (invalidFormatMsg specPathMod.debug_plain ("bad".toList))
        ("bad".toList) = true) :=
  invalid_format_diagnostic specPathMod builderArgValue sArg ("bad".toList)
    true [(sArg, "value".toList)] ("value".toList) rfl rfl (by decide)
    (by decide) (by decide)

/-- C6 (counterexample): the round trip fails for an internal execution
whose argument is present but empty: `as_desc_code` renders `:focus `
and re-parsing gives an absent argument, not `Some("")`. -/
theorem desc_code_roundtrip_fails_on_empty_arg :
    execEmptyArg.arg.isSome = true ∧
    (asDescCode internalName execEmptyArg).bind
      (internalExecutionTryFrom internalTryFrom) ≠ some execEmptyArg := by
  decide

/-- C6 (amended): for every internal execution whose argument is
present, nonempty and free of leading and trailing whitespace, and whose
internal's catalog name contains no `!` and no whitespace, rendering
with `as_desc_code` and re-parsing through the verb invocation parser
and the internal-execution constructor yields an internal execution
equal to the original, for any catalog satisfying the round-trip
contract at that internal. -/
theorem desc_code_roundtrip {I : Type} (name : I → Str)
    (tryFrom : Str → Option I) (e : InternalExecution I) (a : Str)
    (hrt : tryFrom (name e.internal) = some e.internal)
    (ha : e.arg = some a) (hne : a ≠ [])
    (hlead : a.dropWhile isWs = a) (htrail : dropTrailingWs a = a)
    (hname : ∀ c ∈ name e.internal, (!(c = '!') && !(isWs c)) = true) :
    (asDescCode name e).bind (internalExecutionTryFrom tryFrom) = some e := by
  unfold asDescCode
  rw [ha]
  simp only [Option.map_some', Option.some_bind]
  unfold internalExecutionTryFrom
  simp only
    [verbInvocationFrom_desc (name e.internal) a e.bang hname hne hlead htrail,
     hrt, Option.map_some']
  rw [← ha]

/-- C6 (witness): the round trip holds for `:focus! ~`. -/
theorem desc_code_roundtrip_witness :
    (asDescCode internalName execFocusArg).bind
      (internalExecutionTryFrom internalTryFrom) = some execFocusArg :=
  desc_code_roundtrip internalName internalTryFrom execFocusArg ("~".toList)
    rfl rfl (by decide) (by decide) (by decide) (by decide)

/-- C7: `as_desc_code` is defined exactly when the argument is present,
and then renders `:name[!] arg`: a leading colon, the internal's name, a
bang exactly when the flag is set, a single space, then the argument
verbatim. -/
theorem as_desc_code_iff_arg_shape {I : Type} (name : I → Str)
    (e : InternalExecution I) :
    ((asDescCode name e).isSome ↔ e.arg.isSome) ∧
    (∀ a, e.arg = some a →
      asDescCode name e =
        some (':' :: (name e.internal ++ (if e.bang then ['!'] else []) ++
          (' ' :: a)))) := by
  constructor
  · cases h : e.arg <;> simp [asDescCode, h]
  · intro a ha
    simp [asDescCode, ha]

/-- C7 (witness): the shape at the concrete execution `:focus! ~`. -/
theorem as_desc_code_iff_arg_shape_witness :
    asDescCode internalName execFocusArg =
      some (':' :: (internalName execFocusArg.internal ++
        (if execFocusArg.bang then ['!'] else []) ++ (' ' :: ("~".toList)))) :=
  (as_desc_code_iff_arg_shape internalName execFocusArg).2 ("~".toList) rfl

/-- C8: `{line}` always expands to the selection's line number rendered
in decimal (including `0`, covered by every builder with line 0), and
the replacement is the same for both modes: it does not depend on the
escape flag, nor on any format specifier. -/
theorem line_placeholder_decimal_both_modes
    (pm : PathMod) (b : ExecutionStringBuilder) (fmt : Option Str)
    (escape : Bool) :
    getCaptureReplacement pm b sLine fmt escape = lineStr b.sel.line := rfl

/-- C9: the per-token post-processing of `shell_exec_string` never
changes any token (because `Path::new(token).to_str()` always succeeds
on valid UTF-8 and returns the same text), so the produced command
string does not depend on the filesystem-existence oracle. -/
theorem shell_exec_string_fs_independent :
    (∀ (ex : Str → Bool) (t : Str), normalizeToken ex t = t) ∧
    (∀ (pm : PathMod) (b : ExecutionStringBuilder) (execPattern : Str)
      (ex₁ ex₂ : Str → Bool),
      shellExecString pm ex₁ b execPattern =
        shellExecString pm ex₂ b execPattern) := by
  refine ⟨normalizeToken_id, ?_⟩
  intro pm b execPattern ex₁ ex₂
  rw [shellExecString_eq, shellExecString_eq]

/-- C10: for each of the seven standard placeholder names, any attached
format specifier is ignored: the replacement equals the one computed
with no format at all, so an invalid specifier after a standard name
never produces the diagnostic string. -/
theorem standard_names_ignore_format
    (pm : PathMod) (b : ExecutionStringBuilder) (escape : Bool)
    (name : Str) (fmt : Option Str) (h : name ∈ standardNames) :
    getRawCaptureReplacement pm b name fmt escape =
      getRawCaptureReplacement pm b name none escape := by
  simp only [standardNames, List.mem_cons, List.not_mem_nil, or_false] at h
  rcases h with rfl | rfl | rfl | rfl | rfl | rfl | rfl <;> rfl

/-- C10 (witness): `{file:path-from-parent}` expands exactly as
`{file}`. -/
theorem standard_names_ignore_format_witness :
    getRawCaptureReplacement specPathMod builderExample3 sFile
      (some sPathFromParent) true =
      getRawCaptureReplacement specPathMod builderExample3 sFile none true :=
  standard_names_ignore_format specPathMod builderExample3 true sFile
    (some sPathFromParent) (by decide)

end Broot
